import Mathlib

/-!
# Verification of the WordPress AI Image Optimizer Agent

Shallow embedding of `src/agent.py` (WayOf-Digital/wordpress-ai-agent).
Pure functions of the source are translated directly; stateful code is
modelled by explicit state passing (the registry document is a value that
operations map to a new value); network calls are modelled by oracle
parameters (a function from request data to an abstract response); Python
exceptions swallowed by `try/except` are modelled by the response
constructors those handlers map to.
-/

namespace WPAgent

/-- Per-client cumulative counters (`clients[cid]['stats']` in the source). -/
structure Stats where
  total_processed : Nat
  total_errors : Nat
deriving DecidableEq, Repr

/-- A registered WordPress site (`wp_data` dict: url / user / password). -/
structure Site where
  url : String
  user : String
  password : String
deriving DecidableEq, Repr

/-- A client record: registered sites plus cumulative stats.
A client freshly created by `update_client_stats` has no `sites` key in the
source; every read of that key uses `.get('sites', [])`, so it is modelled
as the empty list. -/
structure Client where
  sites : List Site
  stats : Stats
deriving DecidableEq, Repr

/-- Global stats of the document (`self.clients['stats']`). -/
structure GlobalStats where
  total_processed : Nat
deriving DecidableEq, Repr

/-- The persisted registry document (`self.clients`): a mapping from client
id to client record (a Python dict, hence association list in insertion
order with unique keys), plus global stats. -/
structure Registry where
  clients : List (String × Client)
  stats : GlobalStats
deriving DecidableEq, Repr

/-- Dict membership test: `client_id in self.clients['clients']`. -/
def hasClient (cs : List (String × Client)) (cid : String) : Bool :=
  cs.any (fun kv => kv.1 = cid)

/-- Dict read: `self.clients['clients'][client_id]` (first binding wins;
a Python dict has unique keys). -/
def lookupClient : List (String × Client) → String → Option Client
  | [], _ => none
  | (k, c) :: rest, cid => if k = cid then some c else lookupClient rest cid

/-- Dict in-place update of the binding at `cid` (a Python dict mutates the
unique binding for the key). -/
def mapAtKey (f : Client → Client) (cid : String) :
    List (String × Client) → List (String × Client)
  | [] => []
  | (k, c) :: rest =>
      if k = cid then (k, f c) :: mapAtKey f cid rest
      else (k, c) :: mapAtKey f cid rest

/-- Creation step `if client_id not in ...: clients[client_id] = ...`:
insert a fresh zero-counter client at the end (dict insertion order) when
the key is absent. -/
def ensureClient (cid : String) (cs : List (String × Client)) :
    List (String × Client) :=
  if hasClient cs cid then cs else cs ++ [(cid, ⟨[], ⟨0, 0⟩⟩)]

/-- The two `+=` lines of `update_client_stats` on one client record. -/
def bumpStats (p e : Nat) (c : Client) : Client :=
  { c with stats := ⟨c.stats.total_processed + p, c.stats.total_errors + e⟩ }

/-- Model of `update_client_stats` (agent.py:347-358):
create the client if absent, add `processed`/`errors` to its counters, add
`processed` to the global counter. (`save_clients()` is the persistence
step, modelled separately.) -/
def update_client_stats (r : Registry) (cid : String) (p e : Nat) : Registry :=
  let cs := ensureClient cid r.clients
  let cs2 := mapAtKey (bumpStats p e) cid cs
  { clients := cs2, stats := ⟨r.stats.total_processed + p⟩ }

/-- The per-client `total_processed` as the rest of the program reads it
(a client absent from the mapping reads as zero counters). -/
def clientTP (r : Registry) (cid : String) : Nat :=
  match lookupClient r.clients cid with
  | some c => c.stats.total_processed
  | none => 0

/-- The per-client `total_errors`, absent reading as zero. -/
def clientTE (r : Registry) (cid : String) : Nat :=
  match lookupClient r.clients cid with
  | some c => c.stats.total_errors
  | none => 0

/-- Sum of all `clients[*].stats.total_processed`. -/
def sumTP (cs : List (String × Client)) : Nat :=
  (cs.map (fun kv => kv.2.stats.total_processed)).sum

/-! Helper lemmas about the dict model. -/

theorem hasClient_iff_mem (cs : List (String × Client)) (cid : String) :
    hasClient cs cid = true ↔ cid ∈ cs.map Prod.fst := by
  simp only [hasClient, List.any_eq_true, List.mem_map, decide_eq_true_eq]

theorem sumTP_cons (kv : String × Client) (cs : List (String × Client)) :
    sumTP (kv :: cs) = kv.2.stats.total_processed + sumTP cs := by
  simp [sumTP]

theorem sumTP_append (cs ds : List (String × Client)) :
    sumTP (cs ++ ds) = sumTP cs + sumTP ds := by
  simp [sumTP]

theorem lookupClient_mapAtKey (f : Client → Client) (cid : String)
    (cs : List (String × Client)) :
    lookupClient (mapAtKey f cid cs) cid = (lookupClient cs cid).map f := by
  induction cs with
  | nil => rfl
  | cons kv rest ih =>
    obtain ⟨k, c⟩ := kv
    by_cases h : k = cid <;> simp [mapAtKey, lookupClient, h, ih]

theorem lookupClient_none_of_not_mem (cs : List (String × Client)) (cid : String)
    (h : cid ∉ cs.map Prod.fst) : lookupClient cs cid = none := by
  induction cs with
  | nil => rfl
  | cons kv rest ih =>
    obtain ⟨k, c⟩ := kv
    have hk : ¬(k = cid) := fun hkc => h (by simp [hkc])
    have h2 : cid ∉ rest.map Prod.fst := fun hm => h (by simp [hm])
    simp [lookupClient, hk, ih h2]

theorem lookupClient_some_of_mem (cs : List (String × Client)) (cid : String)
    (h : cid ∈ cs.map Prod.fst) : ∃ c, lookupClient cs cid = some c := by
  induction cs with
  | nil => simp at h
  | cons kv rest ih =>
    obtain ⟨k, c⟩ := kv
    by_cases hk : k = cid
    · exact ⟨c, by simp [lookupClient, hk]⟩
    · have h' : cid ∈ rest.map Prod.fst := by
        rcases (by simpa using h : cid = k ∨ cid ∈ rest.map Prod.fst) with h1 | h2
        · exact absurd h1.symm hk
        · exact h2
      obtain ⟨c', hc'⟩ := ih h'
      exact ⟨c', by simp [lookupClient, hk, hc']⟩

theorem lookupClient_append_right (cs : List (String × Client)) (cid : String)
    (x : Client) (h : cid ∉ cs.map Prod.fst) :
    lookupClient (cs ++ [(cid, x)]) cid = some x := by
  induction cs with
  | nil => simp [lookupClient]
  | cons kv rest ih =>
    obtain ⟨k, c⟩ := kv
    have hk : ¬(k = cid) := fun hkc => h (by simp [hkc])
    have h2 : cid ∉ rest.map Prod.fst := fun hm => h (by simp [hm])
    simp [lookupClient, hk, ih h2]

theorem mapAtKey_eq_self_of_not_mem (f : Client → Client) (cid : String)
    (cs : List (String × Client)) (h : cid ∉ cs.map Prod.fst) :
    mapAtKey f cid cs = cs := by
  induction cs with
  | nil => rfl
  | cons kv rest ih =>
    obtain ⟨k, c⟩ := kv
    have hk : ¬(k = cid) := fun hkc => h (by simp [hkc])
    have h2 : cid ∉ rest.map Prod.fst := fun hm => h (by simp [hm])
    simp [mapAtKey, hk, ih h2]

theorem sumTP_mapAtKey_add (p e : Nat) (cid : String) :
    ∀ cs : List (String × Client), (cs.map Prod.fst).Nodup →
      cid ∈ cs.map Prod.fst →
      sumTP (mapAtKey (bumpStats p e) cid cs) = sumTP cs + p := by
  intro cs
  induction cs with
  | nil => intro _ h; simp at h
  | cons kv rest ih =>
    intro hnd h
    obtain ⟨k, c⟩ := kv
    simp only [List.map_cons, List.nodup_cons] at hnd
    by_cases hk : k = cid
    · subst hk
      have e1 : mapAtKey (bumpStats p e) k ((k, c) :: rest)
          = (k, bumpStats p e c) :: rest := by
        simp [mapAtKey, mapAtKey_eq_self_of_not_mem _ _ _ hnd.1]
      rw [e1, sumTP_cons, sumTP_cons]
      simp [bumpStats]
      omega
    · have h' : cid ∈ rest.map Prod.fst := by
        rcases (by simpa using h : cid = k ∨ cid ∈ rest.map Prod.fst) with h1 | h2
        · exact absurd h1.symm hk
        · exact h2
      have e1 : mapAtKey (bumpStats p e) cid ((k, c) :: rest)
          = (k, c) :: mapAtKey (bumpStats p e) cid rest := by
        simp [mapAtKey, hk]
      rw [e1, sumTP_cons, sumTP_cons, ih hnd.2 h']
      omega

/-- C1: every recorded run outcome adds exactly `processed` to the client's
`total_processed`, exactly `errors` to the client's `total_errors`, and
exactly `processed` to the global `stats.total_processed`; and the
invariant "global total = sum of per-client totals" is preserved by the
update (a fresh client starts from zero counters). -/
theorem update_client_stats_deltas_and_invariant (r : Registry) (cid : String)
    (p e : Nat) (hnd : (r.clients.map Prod.fst).Nodup) :
    clientTP (update_client_stats r cid p e) cid = clientTP r cid + p ∧
    clientTE (update_client_stats r cid p e) cid = clientTE r cid + e ∧
    (update_client_stats r cid p e).stats.total_processed
      = r.stats.total_processed + p ∧
    (r.stats.total_processed = sumTP r.clients →
      (update_client_stats r cid p e).stats.total_processed
        = sumTP (update_client_stats r cid p e).clients) := by
  by_cases hmem : cid ∈ r.clients.map Prod.fst
  · have hens : ensureClient cid r.clients = r.clients := by
      unfold ensureClient
      rw [if_pos ((hasClient_iff_mem _ _).mpr hmem)]
    obtain ⟨c, hc⟩ := lookupClient_some_of_mem r.clients cid hmem
    refine ⟨?_, ?_, rfl, ?_⟩
    · simp [clientTP, update_client_stats, hens, lookupClient_mapAtKey, hc, bumpStats]
    · simp [clientTE, update_client_stats, hens, lookupClient_mapAtKey, hc, bumpStats]
    · intro hinv
      simp only [update_client_stats, hens]
      rw [sumTP_mapAtKey_add p e cid r.clients hnd hmem, ← hinv]
  · have hfalse : ¬(hasClient r.clients cid = true) := by
      intro habs
      exact hmem ((hasClient_iff_mem _ _).mp habs)
    have hens : ensureClient cid r.clients = r.clients ++ [(cid, ⟨[], ⟨0, 0⟩⟩)] := by
      unfold ensureClient
      rw [if_neg hfalse]
    have hlk : lookupClient r.clients cid = none :=
      lookupClient_none_of_not_mem _ _ hmem
    refine ⟨?_, ?_, rfl, ?_⟩
    · simp [clientTP, update_client_stats, hens, lookupClient_mapAtKey,
        lookupClient_append_right _ _ _ hmem, hlk, bumpStats]
    · simp [clientTE, update_client_stats, hens, lookupClient_mapAtKey,
        lookupClient_append_right _ _ _ hmem, hlk, bumpStats]
    · intro hinv
      simp only [update_client_stats, hens]
      have hnd2 : (((r.clients ++ [(cid, (⟨[], ⟨0, 0⟩⟩ : Client))]).map Prod.fst)).Nodup := by
        rw [List.map_append]
        refine List.Nodup.append hnd (by simp) ?_
        intro a ha hb
        simp at hb
        subst hb
        exact hmem ha
      have hmem2 : cid ∈ ((r.clients ++ [(cid, (⟨[], ⟨0, 0⟩⟩ : Client))]).map Prod.fst) := by
        simp
      rw [sumTP_mapAtKey_add p e cid _ hnd2 hmem2, sumTP_append, ← hinv]
      simp [sumTP]

/-- Witness for C1 at a concrete registry. -/
theorem update_client_stats_deltas_and_invariant_witness :
    ((([("a", (⟨[], ⟨3, 1⟩⟩ : Client))].map Prod.fst).Nodup) ∧
      clientTP (update_client_stats ⟨[("a", ⟨[], ⟨3, 1⟩⟩)], ⟨3⟩⟩ "a" 2 1) "a" =
        clientTP ⟨[("a", ⟨[], ⟨3, 1⟩⟩)], ⟨3⟩⟩ "a" + 2) := by
  refine ⟨by decide, ?_⟩
  exact (update_client_stats_deltas_and_invariant ⟨[("a", ⟨[], ⟨3, 1⟩⟩)], ⟨3⟩⟩ "a" 2 1
    (by decide)).1


/-! ## Site media pipeline (`process_wordpress_site`, agent.py:194-241) -/

/-- The context dict built by `get_image_context` (agent.py:272-277). -/
structure Context where
  image_url : String
  image_title : String
  page_title : String
  page_content : String
deriving DecidableEq, Repr

/-- A metadata record (the four SEO fields the generators produce). -/
structure Metadata where
  alt_text : String
  title : String
  caption : String
  description : String
deriving DecidableEq, Repr

/-- A WordPress media record as the pipeline reads it.  Python dict reads
with defaults are absorbed into the fields: `image.get('alt_text')` is
falsy exactly when the field is missing or the empty string, so a missing
alt text is modelled as `""`; `image.get('source_url', '')` and
`image.get('title', {}).get('rendered', '')` default to `""`;
`image.get('post')` is `none` when the key is absent. -/
structure ImageRec where
  id : Nat
  alt_text : String
  source_url : String
  title_rendered : String
  post : Option Int
deriving DecidableEq, Repr

/-- Model of `create_prompt` (agent.py:309-330): the f-string template. -/
def create_prompt (c : Context) : String :=
  "Génère des métadonnées SEO pour cette image WordPress.\n\nContexte:\n- Titre de la page: "
    ++ c.page_title
    ++ "\n- Contenu: "
    ++ c.page_content
    ++ "\n- URL de l\x27image: "
    ++ c.image_url
    ++ "\n\nGénère en français un JSON avec:\n- alt_text: description précise (max 125 car)\n- title: titre SEO (max 60 car)\n- caption: légende engageante (max 160 car)\n- description: description détaillée (max 300 car)\n\nFormat JSON uniquement:\n\x7b\n    \"alt_text\": \"...\",\n    \"title\": \"...\",\n    \"caption\": \"...\",\n    \"description\": \"...\"\n\x7d"

/-- Per-run mutable state of the loop in `process_wordpress_site`: the
`processed`/`errors` counters, plus the trace of images for which a
generation call (`generate_with_ai`) or an update call
(`update_wordpress_image`) was performed. -/
structure RunState where
  processed : Nat
  errors : Nat
  genCalls : List ImageRec
  updCalls : List ImageRec
deriving DecidableEq, Repr

/-- One iteration of the `for image in images` loop (agent.py:208-232).
`ctx` is the `get_image_context` call (network oracle), `gen` the
`generate_with_ai` call on the built prompt, `upd` the
`update_wordpress_image` call (True on HTTP 200, False otherwise). -/
def processImage (ctx : ImageRec → Context) (gen : String → Option Metadata)
    (upd : Nat → Metadata → Bool) (s : RunState) (image : ImageRec) : RunState :=
  if image.alt_text = "" then
    match gen (create_prompt (ctx image)) with
    | some metadata =>
        if upd image.id metadata then
          { s with processed := s.processed + 1,
                   genCalls := s.genCalls ++ [image],
                   updCalls := s.updCalls ++ [image] }
        else
          { s with errors := s.errors + 1,
                   genCalls := s.genCalls ++ [image],
                   updCalls := s.updCalls ++ [image] }
    | none =>
        { s with errors := s.errors + 1, genCalls := s.genCalls ++ [image] }
  else s

/-- The whole per-image loop, starting from zero counters. -/
def runImages (ctx : ImageRec → Context) (gen : String → Option Metadata)
    (upd : Nat → Metadata → Bool) (images : List ImageRec) : RunState :=
  images.foldl (processImage ctx gen upd) ⟨0, 0, [], []⟩

/-- The returned run report `{processed, errors, total}` (agent.py:237-241). -/
structure RunResult where
  processed : Nat
  errors : Nat
  total : Nat
deriving DecidableEq, Repr

/-- Model of `process_wordpress_site` on a discovered image list: run the loop and
report `{'processed': processed, 'errors': errors, 'total': len(images)}`.
(The discovery call producing `images` is `fetch_wordpress_images`,
modelled separately; the stats update is `update_client_stats` above.) -/
def process_wordpress_site (ctx : ImageRec → Context)
    (gen : String → Option Metadata) (upd : Nat → Metadata → Bool)
    (images : List ImageRec) : RunResult :=
  let s := runImages ctx gen upd images
  ⟨s.processed, s.errors, images.length⟩

theorem processImage_skip (ctx : ImageRec → Context)
    (gen : String → Option Metadata) (upd : Nat → Metadata → Bool)
    (s : RunState) (image : ImageRec) (h : ¬(image.alt_text = "")) :
    processImage ctx gen upd s image = s := by
  simp [processImage, h]

theorem mem_genCalls_processImage (ctx : ImageRec → Context)
    (gen : String → Option Metadata) (upd : Nat → Metadata → Bool)
    (s : RunState) (image j : ImageRec)
    (h : j ∈ (processImage ctx gen upd s image).genCalls) :
    j ∈ s.genCalls ∨ (j = image ∧ image.alt_text = "") := by
  unfold processImage at h
  by_cases hc : image.alt_text = ""
  · rw [if_pos hc] at h
    cases hg : gen (create_prompt (ctx image)) with
    | none =>
        rw [hg] at h
        simp at h
        rcases h with h | h
        · exact Or.inl h
        · exact Or.inr ⟨h, hc⟩
    | some m =>
        rw [hg] at h
        by_cases hu : upd image.id m <;> simp [hu] at h <;>
          rcases h with h | h
        · exact Or.inl h
        · exact Or.inr ⟨h, hc⟩
        · exact Or.inl h
        · exact Or.inr ⟨h, hc⟩
  · rw [if_neg hc] at h
    exact Or.inl h

theorem mem_updCalls_processImage (ctx : ImageRec → Context)
    (gen : String → Option Metadata) (upd : Nat → Metadata → Bool)
    (s : RunState) (image j : ImageRec)
    (h : j ∈ (processImage ctx gen upd s image).updCalls) :
    j ∈ s.updCalls ∨ (j = image ∧ image.alt_text = "") := by
  unfold processImage at h
  by_cases hc : image.alt_text = ""
  · rw [if_pos hc] at h
    cases hg : gen (create_prompt (ctx image)) with
    | none =>
        rw [hg] at h
        exact Or.inl h
    | some m =>
        rw [hg] at h
        by_cases hu : upd image.id m <;> simp [hu] at h <;>
          rcases h with h | h
        · exact Or.inl h
        · exact Or.inr ⟨h, hc⟩
        · exact Or.inl h
        · exact Or.inr ⟨h, hc⟩
  · rw [if_neg hc] at h
    exact Or.inl h

theorem mem_genCalls_foldl (ctx : ImageRec → Context)
    (gen : String → Option Metadata) (upd : Nat → Metadata → Bool) :
    ∀ (images : List ImageRec) (s : RunState) (j : ImageRec),
      j ∈ (images.foldl (processImage ctx gen upd) s).genCalls →
      j ∈ s.genCalls ∨ (j ∈ images ∧ j.alt_text = "") := by
  intro images
  induction images with
  | nil => intro s j h; exact Or.inl h
  | cons i rest ih =>
    intro s j h
    rcases ih (processImage ctx gen upd s i) j h with h1 | h2
    · rcases mem_genCalls_processImage ctx gen upd s i j h1 with h3 | h4
      · exact Or.inl h3
      · exact Or.inr ⟨by simp [h4.1], h4.1 ▸ h4.2⟩
    · exact Or.inr ⟨by simp [h2.1], h2.2⟩

theorem mem_updCalls_foldl (ctx : ImageRec → Context)
    (gen : String → Option Metadata) (upd : Nat → Metadata → Bool) :
    ∀ (images : List ImageRec) (s : RunState) (j : ImageRec),
      j ∈ (images.foldl (processImage ctx gen upd) s).updCalls →
      j ∈ s.updCalls ∨ (j ∈ images ∧ j.alt_text = "") := by
  intro images
  induction images with
  | nil => intro s j h; exact Or.inl h
  | cons i rest ih =>
    intro s j h
    rcases ih (processImage ctx gen upd s i) j h with h1 | h2
    · rcases mem_updCalls_processImage ctx gen upd s i j h1 with h3 | h4
      · exact Or.inl h3
      · exact Or.inr ⟨by simp [h4.1], h4.1 ▸ h4.2⟩
    · exact Or.inr ⟨by simp [h2.1], h2.2⟩

theorem foldl_processImage_filter (ctx : ImageRec → Context)
    (gen : String → Option Metadata) (upd : Nat → Metadata → Bool) :
    ∀ (images : List ImageRec) (s : RunState),
      images.foldl (processImage ctx gen upd) s
        = (images.filter (fun i => i.alt_text = "")).foldl
            (processImage ctx gen upd) s := by
  intro images
  induction images with
  | nil => intro s; rfl
  | cons i rest ih =>
    intro s
    by_cases h : i.alt_text = ""
    · rw [List.foldl_cons,
        show (i :: rest).filter (fun i => i.alt_text = "")
          = i :: rest.filter (fun i => i.alt_text = "") from by
            simp [List.filter_cons, h],
        List.foldl_cons]
      exact ih (processImage ctx gen upd s i)
    · rw [List.foldl_cons,
        show (i :: rest).filter (fun i => i.alt_text = "")
          = rest.filter (fun i => i.alt_text = "") from by
            simp [List.filter_cons, h],
        processImage_skip ctx gen upd s i h]
      exact ih s

/-- C2: an image that already carries non-empty alt text triggers no
generation call and no update call during a run, and the counters of the
run equal the counters of the run on the candidate sublist alone (the
image only counts toward `total`). -/
theorem run_skips_images_with_alt_text (ctx : ImageRec → Context)
    (gen : String → Option Metadata) (upd : Nat → Metadata → Bool)
    (images : List ImageRec) (img : ImageRec)
    (hmem : img ∈ images) (halt : ¬(img.alt_text = "")) :
    img ∉ (runImages ctx gen upd images).genCalls ∧
    img ∉ (runImages ctx gen upd images).updCalls ∧
    (process_wordpress_site ctx gen upd images).processed
      = (process_wordpress_site ctx gen upd
          (images.filter (fun i => i.alt_text = ""))).processed ∧
    (process_wordpress_site ctx gen upd images).errors
      = (process_wordpress_site ctx gen upd
          (images.filter (fun i => i.alt_text = ""))).errors ∧
    (process_wordpress_site ctx gen upd images).total = images.length := by
  refine ⟨?_, ?_, ?_, ?_, rfl⟩
  · intro habs
    rcases mem_genCalls_foldl ctx gen upd images ⟨0, 0, [], []⟩ img habs with h | h
    · simp at h
    · exact halt h.2
  · intro habs
    rcases mem_updCalls_foldl ctx gen upd images ⟨0, 0, [], []⟩ img habs with h | h
    · simp at h
    · exact halt h.2
  · simp only [process_wordpress_site, runImages]
    rw [foldl_processImage_filter]
  · simp only [process_wordpress_site, runImages]
    rw [foldl_processImage_filter]

/-- Witness for C2 at a concrete run. -/
theorem run_skips_images_with_alt_text_witness :
    (⟨1, "déjà là", "u", "t", none⟩ : ImageRec) ∉
      (runImages (fun _ => ⟨"", "", "", ""⟩) (fun _ => none) (fun _ _ => true)
        [⟨1, "déjà là", "u", "t", none⟩]).genCalls := by
  exact (run_skips_images_with_alt_text (fun _ => ⟨"", "", "", ""⟩)
    (fun _ => none) (fun _ _ => true) [⟨1, "déjà là", "u", "t", none⟩]
    ⟨1, "déjà là", "u", "t", none⟩ (by simp) (by decide)).1

theorem foldl_processImage_all_null (ctx : ImageRec → Context)
    (gen : String → Option Metadata) (upd : Nat → Metadata → Bool) :
    ∀ (images : List ImageRec) (s : RunState),
      (∀ img ∈ images, img.alt_text = "" → gen (create_prompt (ctx img)) = none) →
      (images.foldl (processImage ctx gen upd) s).processed = s.processed ∧
      (images.foldl (processImage ctx gen upd) s).errors
        = s.errors + (images.filter (fun i => i.alt_text = "")).length := by
  intro images
  induction images with
  | nil => intro s _; exact ⟨rfl, by simp⟩
  | cons i rest ih =>
    intro s hnull
    have ihr := ih (processImage ctx gen upd s i)
      (fun img hm hc => hnull img (by simp [hm]) hc)
    by_cases hc : i.alt_text = ""
    · have hg := hnull i (by simp) hc
      have hstep : processImage ctx gen upd s i
          = { s with errors := s.errors + 1, genCalls := s.genCalls ++ [i] } := by
        simp [processImage, hc, hg]
      rw [List.foldl_cons, hstep]
      rw [hstep] at ihr
      refine ⟨ihr.1, ?_⟩
      rw [ihr.2,
        show (i :: rest).filter (fun i => i.alt_text = "")
          = i :: rest.filter (fun i => i.alt_text = "") from by
            simp [List.filter_cons, hc]]
      simp
      omega
    · have hstep : processImage ctx gen upd s i = s :=
        processImage_skip ctx gen upd s i hc
      rw [List.foldl_cons, hstep]
      rw [hstep] at ihr
      refine ⟨ihr.1, ?_⟩
      rw [ihr.2,
        show (i :: rest).filter (fun i => i.alt_text = "")
          = rest.filter (fun i => i.alt_text = "") from by
            simp [List.filter_cons, hc]]

/-- C4: when generation returns null for every candidate image (every
image lacking alt text), the run reports `processed = 0`, `errors` equal
to the number of candidates, and `total` equal to the full discovered
image count. -/
theorem run_all_null_generation (ctx : ImageRec → Context)
    (gen : String → Option Metadata) (upd : Nat → Metadata → Bool)
    (images : List ImageRec)
    (hnull : ∀ img ∈ images, img.alt_text = "" → gen (create_prompt (ctx img)) = none) :
    (process_wordpress_site ctx gen upd images).processed = 0 ∧
    (process_wordpress_site ctx gen upd images).errors
      = (images.filter (fun i => i.alt_text = "")).length ∧
    (process_wordpress_site ctx gen upd images).total = images.length := by
  have h := foldl_processImage_all_null ctx gen upd images ⟨0, 0, [], []⟩ hnull
  exact ⟨h.1, by simpa using h.2, rfl⟩

/-- Witness for C4 at a concrete run: two candidates, one image already
carrying alt text, generation always null. -/
theorem run_all_null_generation_witness :
    (process_wordpress_site (fun _ => ⟨"", "", "", ""⟩) (fun _ => none)
      (fun _ _ => true)
      [⟨1, "", "a", "t", none⟩, ⟨2, "x", "b", "t", none⟩,
        ⟨3, "", "c", "t", none⟩]).processed = 0 := by
  exact (run_all_null_generation (fun _ => ⟨"", "", "", ""⟩) (fun _ => none)
    (fun _ _ => true)
    [⟨1, "", "a", "t", none⟩, ⟨2, "x", "t", "t", none⟩, ⟨3, "", "c", "t", none⟩]
    (fun img hm hc => rfl)).1

/-! ## Discovery (`fetch_wordpress_images`, agent.py:243-268) -/

/-- Response of one `GET /wp-json/wp/v2/media?per_page=100&page=N` request:
`ok batch` is an HTTP 200 with the decoded page, `fail` covers both a
non-200 status and a raised transport error (the bare `except` and the
`else` branch both `break`). -/
inductive PageResp where
  | ok (batch : List ImageRec)
  | fail
deriving DecidableEq, Repr

/-- The batch a page contributes to the accumulated result (a failing page
contributes nothing because the loop breaks before extending). -/
def pageOf (server : Nat → PageResp) (p : Nat) : List ImageRec :=
  match server p with
  | .ok b => b
  | .fail => []

/-- The `while True` loop of `fetch_wordpress_images`, with explicit fuel
standing for the number of iterations still allowed; under the claim's
hypothesis (some page eventually stops the loop) any fuel at least that
page number makes the fuel bound irrelevant. -/
def fetchLoop (server : Nat → PageResp) : Nat → Nat → List ImageRec → List ImageRec
  | 0, _, acc => acc
  | fuel + 1, page, acc =>
    match server page with
    | .ok [] => acc
    | .ok (x :: xs) => fetchLoop server fuel (page + 1) (acc ++ (x :: xs))
    | .fail => acc

/-- Model of `fetch_wordpress_images`: start at `page = 1` with `images = []`. -/
def fetch_wordpress_images (server : Nat → PageResp) (fuel : Nat) : List ImageRec :=
  fetchLoop server fuel 1 []

theorem fetchLoop_pages (server : Nat → PageResp) (N : Nat)
    (hstop : server N = .ok [] ∨ server N = .fail) :
    ∀ (fuel page : Nat) (acc : List ImageRec),
      1 ≤ page → page ≤ N → N ≤ fuel + page →
      (∀ p, page ≤ p → p < N → ∃ b, server p = .ok b ∧ b ≠ []) →
      fetchLoop server fuel page acc
        = acc ++ ((List.range' page (N - page)).map (pageOf server)).flatten := by
  intro fuel
  induction fuel with
  | zero =>
    intro page acc h1 h2 h3 hb
    have hpn : page = N := le_antisymm h2 (by omega)
    subst hpn
    simp [fetchLoop]
  | succ fuel ih =>
    intro page acc h1 h2 h3 hb
    by_cases hpn : page = N
    · subst hpn
      rcases hstop with h | h <;> simp [fetchLoop, h]
    · have hlt : page < N := lt_of_le_of_ne h2 hpn
      obtain ⟨b, hb1, hb2⟩ := hb page le_rfl hlt
      obtain ⟨x, xs, rfl⟩ : ∃ x xs, b = x :: xs := by
        cases b with
        | nil => exact absurd rfl hb2
        | cons x xs => exact ⟨x, xs, rfl⟩
      rw [show fetchLoop server (fuel + 1) page acc
          = fetchLoop server fuel (page + 1) (acc ++ (x :: xs)) from by
        simp [fetchLoop, hb1]]
      rw [ih (page + 1) (acc ++ (x :: xs)) (by omega) hlt (by omega)
        (fun p hp1 hp2 => hb p (by omega) hp2)]
      rw [show N - page = (N - (page + 1)) + 1 from by omega, List.range'_succ]
      simp [pageOf, hb1]

/-- C3: if the media listing stops at page `N` — an empty page or a failed
request (non-200 or transport error) — then with enough fuel the loop of
`fetch_wordpress_images` terminates and returns exactly the in-order
concatenation of the batches of pages `1 .. N-1`; on the failure stop this
is the partial accumulation, returned as a value (not an error). -/
theorem fetch_wordpress_images_pages (server : Nat → PageResp) (N fuel : Nat)
    (hstop : server N = .ok [] ∨ server N = .fail)
    (hbefore : ∀ p, 1 ≤ p → p < N → ∃ b, server p = .ok b ∧ b ≠ [])
    (h1 : 1 ≤ N) (hfuel : N ≤ fuel) :
    fetch_wordpress_images server fuel
      = ((List.range' 1 (N - 1)).map (pageOf server)).flatten := by
  unfold fetch_wordpress_images
  rw [fetchLoop_pages server N hstop fuel 1 [] le_rfl h1 (by omega) hbefore]
  simp

/-- Witness server for C3: one non-empty page, then a failing request. -/
def exServer : Nat → PageResp := fun p =>
  if p = 1 then .ok [⟨1, "", "a", "t", none⟩]
  else if p = 2 then .fail else .ok []

/-- Witness for C3: discovery against `exServer` returns the page-1 batch. -/
theorem fetch_wordpress_images_pages_witness :
    fetch_wordpress_images exServer 5 = [⟨1, "", "a", "t", none⟩] := by
  have h := fetch_wordpress_images_pages exServer 2 5 (Or.inr rfl)
    (fun p hp1 hp2 => by
      have hp : p = 1 := by omega
      subst hp
      exact ⟨[⟨1, "", "a", "t", none⟩], rfl, by decide⟩)
    (by omega) (by omega)
  rw [h]
  decide

/-! ## Metadata generation (`generate_with_ai` and providers, agent.py:64-192) -/

/-- Whitespace for Python `str.split()` with no separator (space, tab,
newline, carriage return, vertical tab, form feed). -/
def isPyWs (c : Char) : Bool :=
  c = ' ' || c = '\t' || c = '\n' || c = '\r' || c = '\x0b' || c = '\x0c'

/-- Python `context.split()`: split on whitespace runs, no empty words. -/
def pySplit (s : String) : List String :=
  (s.split (fun c => isPyWs c)).filter (fun w => w ≠ "")

/-- Python `s[:n]` on a string: the first `n` characters. -/
def pyFirstChars (s : String) (n : Nat) : String :=
  (s.toList.take n).asString

/-- Model of `generate_basic_metadata` (agent.py:181-192): the deterministic
no-AI fallback, built from `words = context.split()[:20]` and
`title_words = ' '.join(words[:5])` (Python `[:60]` on a string is the
first 60 characters). -/
def generate_basic_metadata (context : String) : Metadata :=
  let words := (pySplit context).take 20
  let title_words := String.intercalate " " (words.take 5)
  { alt_text := "Image liée à " ++ title_words,
    title := pyFirstChars title_words 60,
    caption := "Illustration pour " ++ title_words,
    description := "Cette image illustre le contenu relatif à " ++ title_words }

/-- Model of `generate_with_ai` (agent.py:64-75): dispatch on the configured
`AI_MODE` string; the three provider calls are oracles (they hit the
network); any other mode falls back to `generate_basic_metadata`. -/
def generate_with_ai (mode : String) (hf mi lo : String → Option Metadata)
    (prompt : String) : Option Metadata :=
  if mode = "huggingface" then hf prompt
  else if mode = "mistral" then mi prompt
  else if mode = "local" then lo prompt
  else some (generate_basic_metadata prompt)

/-- C5: with no provider mode configured (the `AI_MODE` string is none of
the three provider modes), `generate_with_ai` returns the basic fallback
record — always non-null, no oracle consulted — and the fallback is a
deterministic function of the first 20 whitespace-separated words of the
input (all four fields derive from them). -/
theorem generate_with_ai_fallback (mode : String)
    (hf mi lo : String → Option Metadata) (prompt : String)
    (h1 : ¬(mode = "huggingface")) (h2 : ¬(mode = "mistral"))
    (h3 : ¬(mode = "local")) :
    generate_with_ai mode hf mi lo prompt
      = some (generate_basic_metadata prompt) ∧
    (∀ a b : String, (pySplit a).take 20 = (pySplit b).take 20 →
      generate_basic_metadata a = generate_basic_metadata b) := by
  refine ⟨by simp [generate_with_ai, h1, h2, h3], ?_⟩
  intro a b h
  simp only [generate_basic_metadata]
  rw [h]

/-- Witness for C5 at a concrete mode and prompt. -/
theorem generate_with_ai_fallback_witness :
    generate_with_ai "basic" (fun _ => none) (fun _ => none) (fun _ => none)
        "un chat noir sur un mur blanc"
      = some (generate_basic_metadata "un chat noir sur un mur blanc") := by
  exact (generate_with_ai_fallback "basic" (fun _ => none) (fun _ => none)
    (fun _ => none) "un chat noir sur un mur blanc"
    (by decide) (by decide) (by decide)).1

/-- Python `text.find(c)`: index of the first occurrence, `-1` (here:
`none`) when absent. -/
def pyFindIdx (s : String) (c : Char) : Option Nat :=
  s.toList.findIdx? (fun x => x = c)

/-- Python `text.rfind(c)`: index of the last occurrence, `-1` (here:
`none`) when absent. -/
def pyRfindIdx (s : String) (c : Char) : Option Nat :=
  match s.toList.reverse.findIdx? (fun x => x = c) with
  | some i => some (s.toList.length - 1 - i)
  | none => none

/-- Python `s[a:b]` for `0 ≤ a`, `0 ≤ b`: characters `a` to `b - 1`
(empty when `b ≤ a`). -/
def pySliceN (s : String) (a b : Nat) : String :=
  (((s.toList).drop a).take (b - a)).asString

/-- Python `json_end = text.rfind(c) + 1` (`-1 + 1 = 0` when absent). -/
def json_end (t : String) : Nat :=
  match pyRfindIdx t '\x7d' with
  | some j => j + 1
  | none => 0

/-- Response of one provider POST: `ok` is HTTP 200 with the generated
text already extracted from the response body; `badStatus` a non-200
status (logged, falls through to `return None`); `badBody` an exception
while reading/shaping the body (caught, `return None`); `netErr` a raised
transport error (caught, `return None`). -/
inductive HttpResp where
  | ok (text : String)
  | badStatus (code : Nat)
  | badBody
  | netErr
deriving Repr

/-- Model of `generate_with_huggingface` (agent.py:77-112) after the POST:
`json_start = text.find('{')`, `json_end = text.rfind('}') + 1`, and the
slice is parsed only when `json_start >= 0 and json_end > json_start`.
`parse` is `json.loads` with a raise modelled as `none` (the raise is
caught by the surrounding `except`, which returns `None`). -/
def generate_with_huggingface {α : Type} (parse : String → Option α)
    (resp : HttpResp) : Option α :=
  match resp with
  | .ok text =>
    match pyFindIdx text '\x7b' with
    | some js =>
        if json_end text > js then parse (pySliceN text js (json_end text))
        else none
    | none => none
  | _ => none

/-- Model of `generate_with_mistral` (agent.py:114-147) after the POST: same
extraction, but the guard is only `json_start >= 0` (a degenerate slice is
handed to `json.loads`, whose raise the `except` maps to `None`). -/
def generate_with_mistral {α : Type} (parse : String → Option α)
    (resp : HttpResp) : Option α :=
  match resp with
  | .ok text =>
    match pyFindIdx text '\x7b' with
    | some js => parse (pySliceN text js (json_end text))
    | none => none
  | _ => none

/-- The spec's wording, as a definition to refine against: on a successful
response, parse exactly the substring running from the first `{` to the
last `}`; return null when that substring is absent, when parsing fails,
and on any non-success or failed request. -/
def generation_spec {α : Type} (parse : String → Option α)
    (resp : HttpResp) : Option α :=
  match resp with
  | .ok t =>
    match pyFindIdx t '\x7b', pyRfindIdx t '\x7d' with
    | some i, some j => if i ≤ j then (parse (pySliceN t i (j + 1))) else none
    | _, _ => none
  | _ => none

theorem pySliceN_eq_empty (s : String) (a b : Nat) (h : b ≤ a) :
    pySliceN s a b = "" := by
  simp [pySliceN, Nat.sub_eq_zero_of_le h]
  rfl

/-- C6: both remote providers parse the metadata record from the substring
of the raw response text running from the first `{` to the last `}`, and
return null when the substring is absent, when it fails to parse
(`parse "" = none` encodes that `json.loads` rejects the empty slice the
mistral variant can produce), on non-2xx status, and on network error. -/
theorem remote_generation_parses_json_substring {α : Type}
    (parse : String → Option α) (hempty : parse "" = none) (resp : HttpResp) :
    generate_with_huggingface parse resp = generation_spec parse resp ∧
    generate_with_mistral parse resp = generation_spec parse resp := by
  constructor
  · cases resp with
    | ok text =>
      simp only [generate_with_huggingface, generation_spec]
      cases hf : pyFindIdx text '\x7b' with
      | none => simp
      | some i =>
        cases hr : pyRfindIdx text '\x7d' with
        | none =>
          have h0 : json_end text = 0 := by simp [json_end, hr]
          show (if json_end text > i then parse (pySliceN text i (json_end text))
            else none) = none
          rw [h0, if_neg (by omega)]
        | some j =>
          have h0 : json_end text = j + 1 := by simp [json_end, hr]
          show (if json_end text > i then parse (pySliceN text i (json_end text))
              else none)
            = (if i ≤ j then parse (pySliceN text i (j + 1)) else none)
          rw [h0]
          by_cases hij : i ≤ j
          · rw [if_pos (by omega), if_pos hij]
          · rw [if_neg (by omega), if_neg hij]
    | badStatus code => rfl
    | badBody => rfl
    | netErr => rfl
  · cases resp with
    | ok text =>
      simp only [generate_with_mistral, generation_spec]
      cases hf : pyFindIdx text '\x7b' with
      | none => simp
      | some i =>
        cases hr : pyRfindIdx text '\x7d' with
        | none =>
          have h0 : json_end text = 0 := by simp [json_end, hr]
          show parse (pySliceN text i (json_end text)) = none
          rw [h0, pySliceN_eq_empty text i 0 (by omega), hempty]
        | some j =>
          have h0 : json_end text = j + 1 := by simp [json_end, hr]
          show parse (pySliceN text i (json_end text))
            = (if i ≤ j then parse (pySliceN text i (j + 1)) else none)
          rw [h0]
          by_cases hij : i ≤ j
          · rw [if_pos hij]
          · rw [if_neg hij, pySliceN_eq_empty text i (j + 1) (by omega), hempty]
    | badStatus code => rfl
    | badBody => rfl
    | netErr => rfl

/-- A concrete stand-in for `json.loads` in the C6 witness: rejects the
empty string. -/
def exParse (s : String) : Option String :=
  if s = "" then none else some s

/-- Witness for C6 at a concrete response text. -/
theorem remote_generation_parses_json_substring_witness :
    (exParse "" = none) ∧
    generate_with_mistral exParse (.ok "ab\x7bc\x7dde")
      = generation_spec exParse (.ok "ab\x7bc\x7dde") := by
  exact ⟨rfl,
    (remote_generation_parses_json_substring exParse rfl (.ok "ab\x7bc\x7dde")).2⟩

/-! ## Context extraction (`get_image_context` / `strip_html`, agent.py:270-307) -/

/-- Index of the first `>` among the characters after a `<`, reachable
without crossing a newline: the extent of the lazy regex match `<.*?>`
(`.` does not match a newline in the default regex mode). -/
def tagEndIdx : List Char → Option Nat
  | [] => none
  | c :: rest =>
    if c = '>' then some 0
    else if c = '\n' then none
    else (tagEndIdx rest).map (fun i => i + 1)

/-- Semantics of `re.sub` with the pattern of `strip_html` on the character list: at a
`<`, lazily match up to the first `>` with no intervening newline and drop
the whole span; when no such `>` exists the regex does not match at this
position and the scan advances one character, keeping the `<`. -/
def stripChars : List Char → List Char
  | [] => []
  | c :: rest =>
    if h : c = '<' then
      match tagEndIdx rest with
      | some i => stripChars (rest.drop (i + 1))
      | none => c :: stripChars rest
    else c :: stripChars rest
termination_by l => l.length
decreasing_by
  all_goals simp [List.length_drop]
  omega

/-- Model of `strip_html` (agent.py:304-307). -/
def strip_html (html : String) : String :=
  (stripChars html.toList).asString

theorem stripChars_cons_lt (rest : List Char) :
    stripChars ('<' :: rest)
      = match tagEndIdx rest with
        | some i => stripChars (rest.drop (i + 1))
        | none => '<' :: stripChars rest := by
  simp [stripChars]

theorem stripChars_cons_ne (c : Char) (rest : List Char) (h : ¬(c = '<')) :
    stripChars (c :: rest) = c :: stripChars rest := by
  simp [stripChars, h]

theorem tagEndIdx_append : ∀ t b : List Char, '>' ∉ t → '\n' ∉ t →
    tagEndIdx (t ++ '>' :: b) = some t.length := by
  intro t
  induction t with
  | nil => intro b _ _; simp [tagEndIdx]
  | cons c cs ih =>
    intro b hgt hnl
    have hc1 : ¬(c = '>') := fun h => hgt (by simp [h])
    have hc2 : ¬(c = '\n') := fun h => hnl (by simp [h])
    have h3 : ('>' : Char) ∉ cs := fun h => hgt (by simp [h])
    have h4 : ('\n' : Char) ∉ cs := fun h => hnl (by simp [h])
    simp [tagEndIdx, hc1, hc2, ih b h3 h4]

theorem stripChars_removes_tag : ∀ a t b : List Char,
    '<' ∉ a → '>' ∉ t → '\n' ∉ t →
    stripChars (a ++ '<' :: (t ++ '>' :: b)) = a ++ stripChars b := by
  intro a
  induction a with
  | nil =>
    intro t b _ hgt hnl
    rw [List.nil_append, stripChars_cons_lt, tagEndIdx_append t b hgt hnl]
    show stripChars ((t ++ '>' :: b).drop (t.length + 1)) = stripChars b
    have hsplit : t ++ '>' :: b = (t ++ ['>']) ++ b := by simp
    rw [hsplit, show t.length + 1 = (t ++ ['>']).length from by simp,
      List.drop_left]
  | cons x a ih =>
    intro t b hlt hgt hnl
    have hx : ¬(x = '<') := fun h => hlt (by simp [h])
    have ha : ('<' : Char) ∉ a := fun h => hlt (by simp [h])
    rw [List.cons_append, stripChars_cons_ne x _ hx, ih t b ha hgt hnl]
    rfl

/-- Result of `GET {wp_url}/wp-json/wp/v2/{endpoint}/{post_id}`: `ok` is
HTTP 200 with `title.rendered` and `content.rendered` already read with
their dict defaults; `notOk` covers both a non-200 status (the loop falls
through to the next endpoint) and a raised error (`except: continue`). -/
inductive PostResp where
  | ok (title : String) (content : String)
  | notOk
deriving Repr

/-- Model of `get_image_context` (agent.py:270-302): start from the image-only
fields; when `image.get('post')` is falsy (key absent, or value 0) return
them unchanged; otherwise try the `posts` then the `pages` endpoint and,
on the first 200, fill `page_title` and the tag-stripped,
300-character-truncated `page_content`. -/
def get_image_context (fetchPost : String → Int → PostResp)
    (image : ImageRec) : Context :=
  let base : Context := ⟨image.source_url, image.title_rendered, "", ""⟩
  match image.post with
  | none => base
  | some pid =>
    if pid = 0 then base
    else
      match fetchPost "posts" pid with
      | .ok t c =>
          { base with page_title := t, page_content := pyFirstChars (strip_html c) 300 }
      | .notOk =>
        match fetchPost "pages" pid with
        | .ok t c =>
            { base with page_title := t, page_content := pyFirstChars (strip_html c) 300 }
        | .notOk => base

theorem length_asString (l : List Char) : (l.asString).length = l.length := rfl

theorem pyFirstChars_length_le (s : String) (n : Nat) : (pyFirstChars s n).length ≤ n := by
  rw [pyFirstChars, length_asString, List.length_take]
  omega

/-- C7: context extraction is total and degrades gracefully — with no
parent reference (or a falsy one) the page fields stay empty, and when
every fetch fails the Context carries only the image's own URL/title;
`page_content` is always at most 300 characters; and `strip_html` removes
every `<...>` tag span (naive lazy tag removal). -/
theorem get_image_context_total_and_truncated :
    (∀ (f : String → Int → PostResp) (image : ImageRec),
      image.post = none →
      get_image_context f image
        = ⟨image.source_url, image.title_rendered, "", ""⟩) ∧
    (∀ (f : String → Int → PostResp) (image : ImageRec),
      (∀ ep pid, f ep pid = .notOk) →
      get_image_context f image
        = ⟨image.source_url, image.title_rendered, "", ""⟩) ∧
    (∀ (f : String → Int → PostResp) (image : ImageRec),
      ((get_image_context f image).page_content).length ≤ 300) ∧
    (∀ a t b : List Char, '<' ∉ a → '>' ∉ t → '\n' ∉ t →
      stripChars (a ++ '<' :: (t ++ '>' :: b)) = a ++ stripChars b) := by
  refine ⟨?_, ?_, ?_, stripChars_removes_tag⟩
  · intro f image h
    simp [get_image_context, h]
  · intro f image h
    cases hp : image.post with
    | none => simp [get_image_context, hp]
    | some pid =>
      by_cases h0 : pid = 0
      · simp [get_image_context, hp, h0]
      · simp [get_image_context, hp, h0, h "posts" pid, h "pages" pid]
  · intro f image
    cases hp : image.post with
    | none => simp [get_image_context, hp]
    | some pid =>
      by_cases h0 : pid = 0
      · simp [get_image_context, hp, h0]
      · cases hposts : f "posts" pid with
        | ok t c =>
          simp [get_image_context, hp, h0, hposts, pyFirstChars_length_le]
        | notOk =>
          cases hpages : f "pages" pid with
          | ok t c =>
            simp [get_image_context, hp, h0, hposts, hpages, pyFirstChars_length_le]
          | notOk =>
            simp [get_image_context, hp, h0, hposts, hpages]

/-- Witness for C7: all fetches fail on an image with a parent reference. -/
theorem get_image_context_total_witness :
    get_image_context (fun _ _ => PostResp.notOk) ⟨7, "", "u", "t", some 5⟩
      = ⟨"u", "t", "", ""⟩ := by
  exact get_image_context_total_and_truncated.2.1 (fun _ _ => PostResp.notOk)
    ⟨7, "", "u", "t", some 5⟩ (fun ep pid => rfl)

/-! ## Trigger surface (`/api/process` and `/api/stats`, agent.py:500-542) -/

/-- The JSON body of `POST /api/process`; `data.get(k)` is `none` when the
key is absent. -/
structure ProcessReq where
  client_id : Option String
  wp_url : Option String
  wp_user : Option String
  wp_password : Option String
deriving DecidableEq, Repr

/-- Python truthiness of an optional string: `all([...])` fails on `None`
and on the empty string alike. -/
def isTruthy : Option String → Bool
  | none => false
  | some s => s ≠ ""

/-- The HTTP response of the `/api/process` handler: 400 with an error
message on validation failure, otherwise the `processing` answer. -/
inductive ProcessResp where
  | clientError (code : Nat) (error : String)
  | accepted (message : String)
deriving DecidableEq, Repr

/-- Outcome of one `/api/process` call: the response, the registry after
the handler, and whether `save_clients()` ran. -/
structure ProcessOut where
  resp : ProcessResp
  registry : Registry
  saved : Bool
deriving DecidableEq, Repr

/-- Model of the `process_site()` route (agent.py:500-532): validate the four fields
(`not all([...])` rejects missing and empty values with a 400 before any
mutation), create the client if absent (`sites: []`, zero stats), append
the site record, persist, and answer that the run was launched in the
background (the run itself is `process_wordpress_site`, modelled above). -/
def process_site (r : Registry) (req : ProcessReq) : ProcessOut :=
  if ¬(isTruthy req.client_id ∧ isTruthy req.wp_url ∧ isTruthy req.wp_user
      ∧ isTruthy req.wp_password) then
    ⟨.clientError 400 "Données manquantes", r, false⟩
  else
    let cid := req.client_id.getD ""
    let site : Site :=
      ⟨req.wp_url.getD "", req.wp_user.getD "", req.wp_password.getD ""⟩
    let cs2 := mapAtKey (fun c => { c with sites := c.sites ++ [site] }) cid
      (ensureClient cid r.clients)
    ⟨.accepted "Traitement lancé en arrière-plan", ⟨cs2, r.stats⟩, true⟩

/-- C8: when any of the four request fields is missing or empty, the
handler answers 400 with the explanatory message and leaves everything
untouched: same registry, no client created, no site appended, no
persistence. -/
theorem process_site_validation_atomic (r : Registry) (req : ProcessReq)
    (h : isTruthy req.client_id = false ∨ isTruthy req.wp_url = false
      ∨ isTruthy req.wp_user = false ∨ isTruthy req.wp_password = false) :
    process_site r req = ⟨.clientError 400 "Données manquantes", r, false⟩ := by
  have hcond : ¬(isTruthy req.client_id ∧ isTruthy req.wp_url
      ∧ isTruthy req.wp_user ∧ isTruthy req.wp_password) := by
    rcases h with h | h | h | h <;> simp [h]
  simp [process_site, hcond]

/-- Witness for C8: a request with `wp_password` absent. -/
theorem process_site_validation_atomic_witness :
    process_site ⟨[], ⟨0⟩⟩ ⟨some "c1", some "https://x", some "u", none⟩
      = ⟨.clientError 400 "Données manquantes", ⟨[], ⟨0⟩⟩, false⟩ := by
  exact process_site_validation_atomic ⟨[], ⟨0⟩⟩
    ⟨some "c1", some "https://x", some "u", none⟩
    (Or.inr (Or.inr (Or.inr rfl)))

/-- The JSON document returned by `GET /api/stats` (agent.py:534-542):
global total, active client count, queue length, and the full per-client
mapping — including every `sites` entry with its plaintext `user` and
`password`. The route carries no authentication. -/
structure StatsResp where
  total_processed : Nat
  active_clients : Nat
  processing : Nat
  clients : List (String × Client)
deriving DecidableEq, Repr

/-- Model of `get_stats()` over the registry and the current queue length. -/
def get_stats (r : Registry) (queue_len : Nat) : StatsResp :=
  ⟨r.stats.total_processed, r.clients.length, queue_len, r.clients⟩

/-- C10: a site registered through a valid `POST /api/process` appears,
credentials included, in the `clients` mapping that the unauthenticated
`GET /api/stats` returns; and the stats output is not independent of the
stored secrets (two registries differing only in one stored password give
different stats responses). -/
theorem get_stats_exposes_credentials (r : Registry) (req : ProcessReq)
    (q : Nat)
    (h1 : isTruthy req.client_id = true) (h2 : isTruthy req.wp_url = true)
    (h3 : isTruthy req.wp_user = true) (h4 : isTruthy req.wp_password = true) :
    (∃ c, lookupClient
        (get_stats (process_site r req).registry q).clients
        (req.client_id.getD "") = some c ∧
      (⟨req.wp_url.getD "", req.wp_user.getD "", req.wp_password.getD ""⟩ : Site)
        ∈ c.sites) ∧
    get_stats ⟨[("a", ⟨[⟨"https://s", "u", "pw1"⟩], ⟨0, 0⟩⟩)], ⟨0⟩⟩ 0
      ≠ get_stats ⟨[("a", ⟨[⟨"https://s", "u", "pw2"⟩], ⟨0, 0⟩⟩)], ⟨0⟩⟩ 0 := by
  constructor
  · have hcond : isTruthy req.client_id ∧ isTruthy req.wp_url
        ∧ isTruthy req.wp_user ∧ isTruthy req.wp_password := ⟨h1, h2, h3, h4⟩
    have hreg : (process_site r req).registry.clients
        = mapAtKey
            (fun c => { c with sites := c.sites ++
              [⟨req.wp_url.getD "", req.wp_user.getD "", req.wp_password.getD ""⟩] })
            (req.client_id.getD "")
            (ensureClient (req.client_id.getD "") r.clients) := by
      simp [process_site, hcond]
    have hlk : ∃ c0, lookupClient
        (ensureClient (req.client_id.getD "") r.clients)
        (req.client_id.getD "") = some c0 := by
      by_cases hhas : hasClient r.clients (req.client_id.getD "")
      · rw [show ensureClient (req.client_id.getD "") r.clients = r.clients from by
          simp [ensureClient, hhas]]
        exact lookupClient_some_of_mem _ _ ((hasClient_iff_mem _ _).mp hhas)
      · rw [show ensureClient (req.client_id.getD "") r.clients
            = r.clients ++ [((req.client_id.getD ""), ⟨[], ⟨0, 0⟩⟩)] from by
          simp [ensureClient, hhas]]
        exact ⟨⟨[], ⟨0, 0⟩⟩, lookupClient_append_right _ _ _
          (fun hm => hhas ((hasClient_iff_mem _ _).mpr hm))⟩
    obtain ⟨c0, hc0⟩ := hlk
    refine ⟨{ c0 with sites := c0.sites ++
      [⟨req.wp_url.getD "", req.wp_user.getD "", req.wp_password.getD ""⟩] },
      ?_, by simp⟩
    show lookupClient (process_site r req).registry.clients
      (req.client_id.getD "") = _
    rw [hreg, lookupClient_mapAtKey, hc0]
    rfl
  · decide

/-- Witness for C10: a freshly registered site's password is readable in
the stats response. -/
theorem get_stats_exposes_credentials_witness :
    ∃ c, lookupClient (get_stats (process_site ⟨[], ⟨0⟩⟩
        ⟨some "c1", some "https://x", some "u", some "secret"⟩).registry 0).clients
        "c1" = some c ∧
      (⟨"https://x", "u", "secret"⟩ : Site) ∈ c.sites := by
  exact (get_stats_exposes_credentials ⟨[], ⟨0⟩⟩
    ⟨some "c1", some "https://x", some "u", some "secret"⟩ 0
    (by decide) (by decide) (by decide) (by decide)).1

/-! ## Persistence (`save_clients` / `load_clients`, agent.py:52-62) -/

/-- The JSON values `json.dump` / `json.load` exchange with the database
file (the subset of JSON the registry document uses). -/
inductive Json where
  | jstr (s : String)
  | jnum (n : Nat)
  | jarr (xs : List Json)
  | jobj (kvs : List (String × Json))

/-- JSON-object key lookup (first binding). -/
def jlookup (k : String) : List (String × Json) → Option Json
  | [] => none
  | (k2, v) :: rest => if k2 = k then some v else jlookup k rest

/-- The `stats` sub-object of a client, as written to disk. -/
def encodeStats (s : Stats) : Json :=
  .jobj [("total_processed", .jnum s.total_processed),
         ("total_errors", .jnum s.total_errors)]

/-- A `wp_data` site record, as written to disk. -/
def encodeSite (s : Site) : Json :=
  .jobj [("url", .jstr s.url), ("user", .jstr s.user),
         ("password", .jstr s.password)]

/-- A client record, as written to disk. -/
def encodeClient (c : Client) : Json :=
  .jobj [("sites", .jarr (c.sites.map encodeSite)), ("stats", encodeStats c.stats)]

/-- The `clients` mapping, as written to disk. -/
def encodeClients (cs : List (String × Client)) : List (String × Json) :=
  cs.map (fun kv => (kv.1, encodeClient kv.2))

/-- The whole registry document, as `json.dump(self.clients, f)` writes it. -/
def encodeRegistry (r : Registry) : Json :=
  .jobj [("clients", .jobj (encodeClients r.clients)),
         ("stats", .jobj [("total_processed", .jnum r.stats.total_processed)])]

/-- Reading a stats sub-object back into the typed model. -/
def decodeStats : Json → Option Stats
  | .jobj kvs =>
    match jlookup "total_processed" kvs, jlookup "total_errors" kvs with
    | some (.jnum p), some (.jnum e) => some ⟨p, e⟩
    | _, _ => none
  | _ => none

/-- Reading a site record back into the typed model. -/
def decodeSite : Json → Option Site
  | .jobj kvs =>
    match jlookup "url" kvs, jlookup "user" kvs, jlookup "password" kvs with
    | some (.jstr u), some (.jstr us), some (.jstr p) => some ⟨u, us, p⟩
    | _, _, _ => none
  | _ => none

/-- Reading a site list back into the typed model. -/
def decodeSites : List Json → Option (List Site)
  | [] => some []
  | j :: rest =>
    match decodeSite j, decodeSites rest with
    | some s, some ss => some (s :: ss)
    | _, _ => none

/-- Reading a client record back into the typed model. -/
def decodeClient : Json → Option Client
  | .jobj kvs =>
    match jlookup "sites" kvs, jlookup "stats" kvs with
    | some (.jarr js), some st =>
      match decodeSites js, decodeStats st with
      | some ss, some stats => some ⟨ss, stats⟩
      | _, _ => none
    | _, _ => none
  | _ => none

/-- Reading the clients mapping back into the typed model. -/
def decodeClients : List (String × Json) → Option (List (String × Client))
  | [] => some []
  | (k, v) :: rest =>
    match decodeClient v, decodeClients rest with
    | some c, some cs => some ((k, c) :: cs)
    | _, _ => none

/-- Reading a whole registry document back into the typed model. -/
def decodeRegistry : Json → Option Registry
  | .jobj kvs =>
    match jlookup "clients" kvs, jlookup "stats" kvs with
    | some (.jobj ckvs), some (.jobj skvs) =>
      match decodeClients ckvs, jlookup "total_processed" skvs with
      | some cs, some (.jnum t) => some ⟨cs, ⟨t⟩⟩
      | _, _ => none
    | _, _ => none
  | _ => none

/-- Model of `save_clients()` (agent.py:59-62): `json.dump(self.clients, f)` — the
database file afterwards holds the document as one JSON value (the
`json.dump`/`json.load` text round trip is a property of the Python
standard library, not of this program; persistence is therefore modelled
at the JSON-value level). -/
def save_clients (r : Registry) : Json :=
  encodeRegistry r

/-- Model of `load_clients()` (agent.py:52-57): when the database file exists,
`json.load` it back (reconstructing the typed document the program state
is modelled by); otherwise the fresh empty document. -/
def load_clients (file : Option Json) : Option Registry :=
  match file with
  | some j => decodeRegistry j
  | none => some ⟨[], ⟨0⟩⟩

theorem decodeSite_encodeSite (s : Site) : decodeSite (encodeSite s) = some s := by
  simp [encodeSite, decodeSite, jlookup]

theorem decodeSites_map_encodeSite (ss : List Site) :
    decodeSites (ss.map encodeSite) = some ss := by
  induction ss with
  | nil => rfl
  | cons s rest ih => simp [decodeSites, decodeSite_encodeSite, ih]

theorem decodeStats_encodeStats (s : Stats) :
    decodeStats (encodeStats s) = some s := by
  simp [encodeStats, decodeStats, jlookup]

theorem decodeClient_encodeClient (c : Client) :
    decodeClient (encodeClient c) = some c := by
  simp [encodeClient, decodeClient, jlookup, decodeSites_map_encodeSite,
    decodeStats_encodeStats]

theorem decodeClients_encodeClients (cs : List (String × Client)) :
    decodeClients (encodeClients cs) = some cs := by
  induction cs with
  | nil => rfl
  | cons kv rest ih =>
    obtain ⟨k, c⟩ := kv
    show (match decodeClient (encodeClient c), decodeClients (encodeClients rest) with
      | some c, some cs => some ((k, c) :: cs)
      | _, _ => none) = some ((k, c) :: rest)
    rw [decodeClient_encodeClient, ih]

/-- C9: persisting the registry document and reloading it yields the
identical document: `load_clients (save_clients r) = r` for every typed
registry (clients mapping with sites and stats, plus global stats). -/
theorem load_clients_save_clients (r : Registry) :
    load_clients (some (save_clients r)) = some r := by
  simp [load_clients, save_clients, encodeRegistry, decodeRegistry, jlookup,
    decodeClients_encodeClients]

end WPAgent
